import Mathlib

/-!
Shallow embedding of the opencoff/go-ratelimit token-bucket rate limiter.

The repository carries several historical variants of the same idea:

* a float64 token bucket (`RateLimiter` with `CanTake` in perip-era
  `ratelimit.go`): tokens are float64, capacity (`clamp`) is
  `max(rate, burst)`, `per == 0` is normalized to `1`.  We model float64
  arithmetic with exact rationals `ℚ`; all quantities involved in the
  claims are small and exactly representable.
* a uint64 nanosecond token bucket (`RateLimiter` with `MaybeTake`):
  tokens are measured in nanoseconds of accumulated time, `cost` is the
  nanoseconds needed to regenerate one token, `per == 0` is a
  construction error, and `burst == 0` defaults to `rate`.  uint64
  arithmetic is modelled as `ℕ` with explicit `% 2^64` where Go wraps.
* per-source registries (`PerIPRateLimiter` over an external LRU cache,
  and `host`-keyed variants).  The external cache and `net.SplitHostPort`
  are not part of the repository; where a claim needs them they are
  modelled from the spec and flagged as such.

Clocks are injected: every operation takes the current time `now : ℤ`
in nanoseconds, mirroring the repository's injectable `Clock`.
-/

namespace GoRatelimit

/-! ## uint64 arithmetic helpers (Go semantics) -/

/-- Wrap-around modulus of Go's `uint64`. -/
def U64 : ℕ := 2 ^ 64

/-- Largest value of Go's `int64` / `time.Duration`. -/
def I64MAX : ℤ := 2 ^ 63 - 1

/-- Smallest value of Go's `int64` / `time.Duration`. -/
def I64MIN : ℤ := -(2 ^ 63)

/-- Go `time.Time.Sub` saturates at the `Duration` (int64) range. -/
def durClamp (d : ℤ) : ℤ := max I64MIN (min d I64MAX)

/-- Go conversion `uint64(d)` of an in-range `int64` value `d`:
two's-complement reinterpretation, i.e. value modulo `2^64`. -/
def toU64 (d : ℤ) : ℕ := (d % (U64 : ℤ)).toNat

/-- Number of nanoseconds in one second (`_NS` in the source). -/
def NS : ℕ := 1000000000

/-! ## The uint64 nanosecond token bucket (`RateLimiter` with `MaybeTake`) -/

/-- State of the nanosecond-based `RateLimiter` (fields as in the Go
struct; `tokens` is in units of nanoseconds-of-accumulated-time). -/
structure RL64 where
  cost : ℕ
  tokens : ℕ
  maxtok : ℕ
  last : ℤ
  rate : ℕ
  burst : ℕ
  per : ℕ
  deriving Repr, DecidableEq

/-- `NewBurstWithClock(rate, per, burst, clk)` of the nanosecond variant:
rejects `per == 0`, defaults `burst == 0` to `rate`, and for a positive
rate sets `cost = (per*_NS)/rate`, `tokens = maxtok = burst*cost`
(uint64 arithmetic, hence the `% U64`). `now` is `clk.Now()`. -/
def newBurstWithClock64 (rate per burst : ℕ) (now : ℤ) : Except String RL64 :=
  if per = 0 then .error "ratelimit: duration can't be zero"
  else
    let burst' := if burst = 0 then rate else burst
    let base : RL64 :=
      { cost := 0, tokens := 0, maxtok := 0, last := now,
        rate := rate % U64, burst := burst' % U64, per := per % U64 }
    if rate % U64 > 0 then
      let cost := ((base.per * NS) % U64) / base.rate
      let tokens := (base.burst * cost) % U64
      .ok { base with cost := cost, tokens := tokens, maxtok := tokens }
    else .ok base

/-- `New(rate, per)` of the nanosecond variant. -/
def new64 (rate per : ℕ) (now : ℤ) : Except String RL64 :=
  newBurstWithClock64 rate per 0 now

/-- `MaybeTake(vn)`: returns whether all `vn` tokens could be taken,
together with the post-state.  Mirrors the source: elapsed nanoseconds
are added to `tokens` (uint64 wrap), clamped to `maxtok`, `last` is
advanced unconditionally, and `want = vn*cost` is subtracted only when
available. -/
def maybeTake64 (r : RL64) (now : ℤ) (vn : ℕ) : Bool × RL64 :=
  if r.rate = 0 then (true, r)
  else
    let e := toU64 (durClamp (now - r.last))
    let t1 := (r.tokens + e) % U64
    let t2 := if t1 > r.maxtok then r.maxtok else t1
    let want := ((vn % U64) * r.cost) % U64
    if want ≤ t2 then (true, { r with tokens := t2 - want, last := now })
    else (false, { r with tokens := t2, last := now })

/-- `Limit()` of the nanosecond variant: `!MaybeTake(1)`. -/
def limit64 (r : RL64) (now : ℤ) : Bool × RL64 :=
  let p := maybeTake64 r now 1
  (!p.1, p.2)

/-- `Reset()`: refill to `burst*cost` and restamp `last`, only when the
rate is positive. -/
def reset64 (r : RL64) (now : ℤ) : RL64 :=
  if r.rate > 0 then { r with tokens := (r.burst * r.cost) % U64, last := now }
  else r

/-! ## The float64 token bucket (`RateLimiter` with `CanTake`),
modelled over exact rationals -/

/-- State of the float-based `RateLimiter` (float64 fields modelled as
`ℚ`).  The Go struct also declares a `per` field but the constructor
never assigns it, so it is omitted here. -/
structure RateLimiterQ where
  rate : ℚ
  frac : ℚ
  tokens : ℚ
  clamp : ℚ
  last : ℤ
  unlimited : Bool
  deriving Repr, DecidableEq

/-- `NewBurstWithClock(rate, per, burst, clk)` of the float variant:
`per == 0` is normalized to `1`, `clamp = max(rate, burst)`,
`frac = rate / (per*1000)` (tokens per millisecond), bucket starts
full, `unlimited` iff `rate == 0`.  This constructor never fails. -/
def newBurstWithClockQ (rate per burst : ℕ) (now : ℤ) : RateLimiterQ :=
  let per' := if per = 0 then 1 else per
  let clamp : ℕ := if burst > rate then burst else rate
  { rate := (rate : ℚ)
    frac := (rate : ℚ) / ((per' * 1000 : ℕ) : ℚ)
    tokens := (clamp : ℚ)
    clamp := (clamp : ℚ)
    last := now
    unlimited := rate == 0 }

/-- `CanTake(vn)` of the float variant: drip-fill by
`since * frac` where `since` is the elapsed time in milliseconds,
clamp to `clamp`, advance `last`, then all-or-nothing take. -/
def canTakeQ (r : RateLimiterQ) (now : ℤ) (vn : ℕ) : Bool × RateLimiterQ :=
  if r.unlimited then (true, r)
  else
    let since : ℚ := ((now - r.last : ℤ) : ℚ) / 1000000
    let t1 := r.tokens + since * r.frac
    let t2 := if t1 > r.clamp then r.clamp else t1
    if t2 < (vn : ℚ) then (false, { r with last := now, tokens := t2 })
    else (true, { r with last := now, tokens := t2 - (vn : ℚ) })

/-- `Limit()` of the float variant: `!CanTake(1)`. -/
def limitQ (r : RateLimiterQ) (now : ℤ) : Bool × RateLimiterQ :=
  let p := canTakeQ r now 1
  (!p.1, p.2)

/-! ## Operation sequences over a bucket -/

/-- An operation on the float-variant bucket. -/
inductive QOp where
  | canTake (n : ℕ)
  | limit
  deriving Repr, DecidableEq

/-- State transition of one float-variant operation at time `t`. -/
def stepQ (r : RateLimiterQ) (t : ℤ) : QOp → RateLimiterQ
  | .canTake n => (canTakeQ r t n).2
  | .limit => (limitQ r t).2

/-- Trace of post-states of a float-variant operation sequence
(`(time, op)` pairs). -/
def runQ (r : RateLimiterQ) : List (ℤ × QOp) → List RateLimiterQ
  | [] => []
  | (t, op) :: rest =>
    let r' := stepQ r t op
    r' :: runQ r' rest

/-- Boolean results of a sequence of `CanTake` calls, each given as a
`(tokens requested, time)` pair. -/
def runResultsQ (r : RateLimiterQ) : List (ℕ × ℤ) → List Bool
  | [] => []
  | (n, t) :: rest =>
    let p := canTakeQ r t n
    p.1 :: runResultsQ p.2 rest

/-- An operation on the nanosecond-variant bucket. -/
inductive Op64 where
  | maybeTake (n : ℕ)
  | limit
  | reset
  deriving Repr, DecidableEq

/-- State transition of one nanosecond-variant operation at time `t`. -/
def step64 (r : RL64) (t : ℤ) : Op64 → RL64
  | .maybeTake n => (maybeTake64 r t n).2
  | .limit => (limit64 r t).2
  | .reset => reset64 r t

/-- Trace of post-states of a nanosecond-variant operation sequence. -/
def run64 (r : RL64) : List (ℤ × Op64) → List RL64
  | [] => []
  | (t, op) :: rest =>
    let r' := step64 r t op
    r' :: run64 r' rest

/-- Boolean results of a sequence of `MaybeTake` calls, each given as a
`(tokens requested, time)` pair. -/
def runResults64 (r : RL64) : List (ℕ × ℤ) → List Bool
  | [] => []
  | (n, t) :: rest =>
    let p := maybeTake64 r t n
    p.1 :: runResults64 p.2 rest

/-! ## Drip-fill decomposition (for the take semantics claim) -/

/-- The drip-fill accounting step of the float variant in isolation:
accrue `since * frac`, clamp to `clamp`, advance `last`. -/
def dripFillQ (r : RateLimiterQ) (now : ℤ) : RateLimiterQ :=
  let since : ℚ := ((now - r.last : ℤ) : ℚ) / 1000000
  let t1 := r.tokens + since * r.frac
  { r with last := now, tokens := if t1 > r.clamp then r.clamp else t1 }

/-- The drip-fill accounting step of the nanosecond variant in
isolation: add elapsed nanoseconds (uint64 wrap), clamp to `maxtok`,
advance `last`. -/
def dripFill64 (r : RL64) (now : ℤ) : RL64 :=
  let t1 := (r.tokens + toU64 (durClamp (now - r.last))) % U64
  { r with last := now, tokens := if t1 > r.maxtok then r.maxtok else t1 }

/-- The cost in token-nanosecond units of a request of `vn` tokens in
the nanosecond variant (`want := uint64(vn) * r.cost`). -/
def want64 (r : RL64) (vn : ℕ) : ℕ := ((vn % U64) * r.cost) % U64

/-! ## Spec-modelled bounded LRU cache

The per-source registry stores its buckets in an external cache library
(`github.com/opencoff/golang-lru`), whose code is not part of this
repository.  The spec treats it as a capability: "get-or-create keyed
entry, bounded size, LRU eviction". -/

/-- A bounded cache state: association list of key/bucket pairs, most
recently used first. -/
abbrev Cache := List (String × RL64)

/-- Keys currently tracked by a cache, in recency order. -/
def cacheKeys (c : Cache) : List String := c.map Prod.fst

/-- Look up a key: the stored bucket, if present. -/
def cacheFind (c : Cache) (k : String) : Option RL64 :=
  match c with
  | [] => none
  | (k', v) :: rest => if k' = k then some v else cacheFind rest k

/-- Remove the entry with key `k` (if any), keeping the others in
order. -/
def cacheErase (c : Cache) (k : String) : Cache :=
  match c with
  | [] => []
  | (k', v) :: rest => if k' = k then rest else (k', v) :: cacheErase rest k

/-- Modelled from the spec: the external bounded cache's atomic
get-or-create (`Probe`).  The cache code itself is not in the
repository; the spec requires "get-or-create keyed entry, bounded
size, LRU eviction".  A hit returns the stored bucket and refreshes
its recency; a miss stores `mk` at the most-recent position and, if
the capacity `maxN` is exceeded, evicts the least-recently-used
(last) entry. -/
def cacheProbe (maxN : ℕ) (c : Cache) (k : String) (mk : RL64) : RL64 × Cache :=
  match cacheFind c k with
  | some v => (v, (k, v) :: cacheErase c k)
  | none => (mk, ((k, mk) :: c).take maxN)

/-- Trace of cache states produced by probing a list of keys in order
(every miss creates the bucket `mk`). -/
def runProbes (maxN : ℕ) (mk : RL64) (c : Cache) : List String → List Cache
  | [] => []
  | k :: rest =>
    let c' := (cacheProbe maxN c k mk).2
    c' :: runProbes maxN mk c' rest

/-! ## Host key derivation

`host(a)` in the source returns `net.SplitHostPort(a.String())`'s host
on success and the full address string otherwise.  `net.SplitHostPort`
is the Go standard library, not part of this repository. -/

/-- Split a character list at its last colon: `some (before, after)`
when a colon exists, `none` otherwise. -/
def lastColonSplit : List Char → Option (List Char × List Char)
  | [] => none
  | ch :: rest =>
    match lastColonSplit rest with
    | some (h, p) => some (ch :: h, p)
    | none => if ch = ':' then some ([], rest) else none

/-- Modelled from the spec: Go's `net.SplitHostPort` (standard
library, not in this repository).  The spec says "extract host portion
of the address; if the address cannot be split into host/port, use the
full address string".  The model splits at the last colon, strips one
pair of surrounding square brackets from the host (IPv6 literals), and
fails when there is no colon or when an unbracketed host still
contains a colon ("too many colons"). -/
def splitHostPort (s : String) : Option (String × String) :=
  match lastColonSplit s.data with
  | none => none
  | some (h, p) =>
    if h.contains ':' then
      match h with
      | '[' :: rest =>
        if rest.getLast? = some ']' then some (⟨rest.dropLast⟩, ⟨p⟩) else none
      | _ => none
    else if h.contains '[' ∨ h.contains ']' then none
    else some (⟨h⟩, ⟨p⟩)

/-- `host(a)` from the source: the host portion when the address splits
into host and port, the full address string otherwise. -/
def hostKey (s : String) : String :=
  match splitHostPort s with
  | some hp => hp.1
  | none => s

/-! ## The per-IP registry (`PerIPRateLimiter` over the LRU cache) -/

/-- Construction errors of `NewPerIP`, distinguished by their source:
parameter validation (`New(rate, per)` fails, i.e. `per == 0`) versus
the cache-capacity check (`max <= 0`). -/
inductive PerIPErr where
  | badPer
  | badMax
  deriving Repr, DecidableEq

/-- State of `PerIPRateLimiter`: `rlSome` models whether the `rl`
cache pointer is non-nil (it is left nil when `rate == 0`); `maxN`
models the bounded cache's configured capacity. -/
structure PerIP where
  rlSome : Bool
  cache : Cache
  maxN : ℕ
  rate : ℕ
  per : ℕ
  deriving Repr, DecidableEq

/-- `NewPerIP(ratex, perx, max)`: first validates the bucket
parameters by constructing a throwaway limiter (which fails exactly
when `perx == 0`), then rejects `max <= 0`, then allocates the cache
only when `ratex > 0`. -/
def newPerIP (ratex perx : ℕ) (maxE : ℤ) : Except PerIPErr PerIP :=
  if perx = 0 then .error .badPer
  else if maxE ≤ 0 then .error .badMax
  else .ok { rlSome := ratex != 0, cache := [], maxN := maxE.toNat,
             rate := ratex, per := perx }

/-- The fresh bucket a registry miss creates: `New(p.rate, p.per)` at
the current time.  Construction cannot fail for a registry built by
`newPerIP` (which guarantees `per > 0`); the error branch returns a
zeroed bucket and is unreachable there. -/
def perIPFresh (p : PerIP) (now : ℤ) : RL64 :=
  match new64 p.rate p.per now with
  | .ok b => b
  | .error _ =>
    { cost := 0, tokens := 0, maxtok := 0, last := now, rate := 0, burst := 0, per := 0 }

/-- `probe(a)` of the registry: atomic get-or-create of the bucket for
the key `a.String()` (this historical variant keys on the full address
string). -/
def perIPProbe (p : PerIP) (a : String) (now : ℤ) : RL64 × PerIP :=
  let r := cacheProbe p.maxN p.cache a (perIPFresh p now)
  (r.1, { p with cache := r.2 })

/-- Store the mutated bucket back at the front of the cache (the Go
bucket is mutated in place through its pointer; the probe has just
moved the entry to the most-recent position). -/
def perIPStore (p : PerIP) (a : String) (b : RL64) : PerIP :=
  { p with cache := (a, b) :: cacheErase p.cache a }

/-- `MaybeTake(a, n)` of the registry: returns `false` outright when
the cache pointer is nil (the `rate == 0` "unlimited" configuration),
otherwise resolves the bucket and delegates to its `MaybeTake`. -/
def perIPMaybeTake (p : PerIP) (a : String) (now : ℤ) (n : ℕ) : Bool × PerIP :=
  if !p.rlSome then (false, p)
  else
    let zc := perIPProbe p a now
    let res := maybeTake64 zc.1 now n
    (res.1, perIPStore zc.2 a res.2)

/-- `Limit(a)` of the registry: `false` (never limit) when the cache
pointer is nil, otherwise the bucket's `Limit()`. -/
def perIPLimit (p : PerIP) (a : String) (now : ℤ) : Bool × PerIP :=
  if !p.rlSome then (false, p)
  else
    let zc := perIPProbe p a now
    let res := limit64 zc.1 now
    (res.1, perIPStore zc.2 a res.2)

/-- Decidable check that a list of timestamps is non-decreasing and
starts no earlier than `t0` (an injected clock never runs backwards). -/
def timesMono (t0 : ℤ) : List ℤ → Bool
  | [] => true
  | t :: rest => decide (t0 ≤ t) && timesMono t rest

/-- State invariant of a limited float-variant bucket: the balance is
within `[0, clamp]`, the drip rate is non-negative, and the bucket is
not in unlimited mode. -/
def InvQ (r : RateLimiterQ) : Prop :=
  0 ≤ r.tokens ∧ r.tokens ≤ r.clamp ∧ 0 ≤ r.frac ∧ r.unlimited = false

/-- State invariant of a nanosecond-variant bucket: the balance never
exceeds `maxtok`, and refilling (`Reset`) restores exactly `maxtok`. -/
def Inv64 (r : RL64) : Prop :=
  r.tokens ≤ r.maxtok ∧ (r.burst * r.cost) % U64 = r.maxtok

end GoRatelimit

namespace GoRatelimit

/-! ## Helper lemmas -/

/-- One `CanTake` at a time not before `last` preserves the
float-variant invariant, stamps `last`, and fixes `clamp`. -/
theorem canTakeQ_preserves (r : RateLimiterQ) (t : ℤ) (n : ℕ)
    (hr : InvQ r) (ht : r.last ≤ t) :
    InvQ (canTakeQ r t n).2 ∧ (canTakeQ r t n).2.last = t ∧
      (canTakeQ r t n).2.clamp = r.clamp := by
  obtain ⟨h0, hc, hf, hu⟩ := hr
  have hsince : (0 : ℚ) ≤ ((t - r.last : ℤ) : ℚ) / 1000000 := by
    have h1 : (0 : ℚ) ≤ ((t - r.last : ℤ) : ℚ) := by
      exact_mod_cast Int.sub_nonneg.mpr ht
    exact div_nonneg h1 (by norm_num)
  have hacc : (0 : ℚ) ≤ ((t - r.last : ℤ) : ℚ) / 1000000 * r.frac :=
    mul_nonneg hsince hf
  have hn : (0 : ℚ) ≤ (n : ℚ) := Nat.cast_nonneg n
  have hclamp0 : (0 : ℚ) ≤ r.clamp := h0.trans hc
  simp only [canTakeQ, hu, Bool.false_eq_true, if_false, InvQ]
  split_ifs <;> simp_all <;> linarith

/-- One float-variant operation preserves the invariant. -/
theorem stepQ_preserves (r : RateLimiterQ) (t : ℤ) (op : QOp)
    (hr : InvQ r) (ht : r.last ≤ t) :
    InvQ (stepQ r t op) ∧ (stepQ r t op).last = t ∧
      (stepQ r t op).clamp = r.clamp := by
  cases op with
  | canTake n => exact canTakeQ_preserves r t n hr ht
  | limit => exact canTakeQ_preserves r t 1 hr ht

/-- Along any non-decreasing-time run, every intermediate
float-variant state satisfies the invariant with unchanged `clamp`. -/
theorem runQ_inv : ∀ (ops : List (ℤ × QOp)) (r : RateLimiterQ), InvQ r →
    timesMono r.last (ops.map Prod.fst) = true →
    ∀ s ∈ runQ r ops, InvQ s ∧ s.clamp = r.clamp := by
  intro ops
  induction ops with
  | nil => intro r _ _ s hs; simp [runQ] at hs
  | cons hd tl ih =>
    obtain ⟨t, op⟩ := hd
    intro r hr hmono s hs
    simp only [List.map_cons, timesMono, Bool.and_eq_true, decide_eq_true_eq] at hmono
    obtain ⟨ht, hmono'⟩ := hmono
    obtain ⟨hinv', hlast', hclamp'⟩ := stepQ_preserves r t op hr ht
    simp only [runQ, List.mem_cons] at hs
    rcases hs with rfl | hs
    · exact ⟨hinv', hclamp'⟩
    · have hrec := ih (stepQ r t op) hinv' (by rw [hlast']; exact hmono') s hs
      exact ⟨hrec.1, hrec.2.trans hclamp'⟩

/-- A freshly constructed float-variant bucket with positive rate
satisfies the invariant. -/
theorem newQ_inv (rate per burst : ℕ) (t0 : ℤ) (h : 0 < rate) :
    InvQ (newBurstWithClockQ rate per burst t0) := by
  refine ⟨?_, le_refl _, ?_, ?_⟩
  · exact Nat.cast_nonneg _
  · exact div_nonneg (Nat.cast_nonneg _) (Nat.cast_nonneg _)
  · simp [newBurstWithClockQ, Nat.pos_iff_ne_zero.mp h]

/-- One `MaybeTake` preserves the nanosecond-variant invariant and the
configuration fields. -/
theorem maybeTake64_preserves (r : RL64) (t : ℤ) (n : ℕ) (hr : Inv64 r) :
    Inv64 (maybeTake64 r t n).2 ∧ (maybeTake64 r t n).2.maxtok = r.maxtok := by
  obtain ⟨h1, h2⟩ := hr
  simp only [maybeTake64, Inv64]
  split_ifs <;> simp_all
  all_goals omega

/-- One nanosecond-variant operation preserves the invariant. -/
theorem step64_preserves (r : RL64) (t : ℤ) (op : Op64) (hr : Inv64 r) :
    Inv64 (step64 r t op) ∧ (step64 r t op).maxtok = r.maxtok := by
  cases op with
  | maybeTake n => exact maybeTake64_preserves r t n hr
  | limit => exact maybeTake64_preserves r t 1 hr
  | reset =>
    obtain ⟨h1, h2⟩ := hr
    simp only [step64, reset64, Inv64]
    split_ifs <;> simp_all

/-- Along any run, every intermediate nanosecond-variant state
satisfies the invariant with unchanged `maxtok`. -/
theorem run64_inv : ∀ (ops : List (ℤ × Op64)) (r : RL64), Inv64 r →
    ∀ s ∈ run64 r ops, Inv64 s ∧ s.maxtok = r.maxtok := by
  intro ops
  induction ops with
  | nil => intro r _ s hs; simp [run64] at hs
  | cons hd tl ih =>
    obtain ⟨t, op⟩ := hd
    intro r hr s hs
    obtain ⟨hinv', hmax'⟩ := step64_preserves r t op hr
    simp only [run64, List.mem_cons] at hs
    rcases hs with rfl | hs
    · exact ⟨hinv', hmax'⟩
    · have hrec := ih (step64 r t op) hinv' s hs
      exact ⟨hrec.1, hrec.2.trans hmax'⟩

/-- A successfully constructed nanosecond-variant bucket satisfies the
invariant. -/
theorem new64_inv (rate per burst : ℕ) (t0 : ℤ) (r0 : RL64)
    (h : newBurstWithClock64 rate per burst t0 = .ok r0) : Inv64 r0 := by
  simp only [newBurstWithClock64] at h
  split_ifs at h
  all_goals
    first
    | exact Except.noConfusion h
    | (injection h with h; subst h; exact ⟨le_refl _, rfl⟩)

/-- Erasing a present key shrinks the cache by exactly one entry. -/
theorem cacheErase_length_of_find (c : Cache) (k : String) :
    ∀ v, cacheFind c k = some v → (cacheErase c k).length + 1 = c.length := by
  induction c with
  | nil => intro v h; simp [cacheFind] at h
  | cons e rest ih =>
    obtain ⟨k1, v1⟩ := e
    intro v h
    by_cases hk : k1 = k
    · simp [cacheErase, hk]
    · simp only [cacheFind, if_neg hk] at h
      have := ih v h
      simp only [cacheErase, if_neg hk, List.length_cons]
      omega

/-- A probe never grows the cache beyond the capacity `N`. -/
theorem cacheProbe_length_le (N : ℕ) (c : Cache) (k : String) (mk : RL64)
    (h : c.length ≤ N) : (cacheProbe N c k mk).2.length ≤ N := by
  unfold cacheProbe
  cases hf : cacheFind c k with
  | none => simp [List.length_take]
  | some v =>
    have := cacheErase_length_of_find c k v hf
    simp only [List.length_cons]
    omega

/-- Every cache state along a probe run keeps at most `N` entries. -/
theorem runProbes_length (N : ℕ) (mk : RL64) :
    ∀ (keys : List String) (c : Cache), c.length ≤ N →
      ∀ x ∈ runProbes N mk c keys, x.length ≤ N := by
  intro keys
  induction keys with
  | nil => intro c _ x hx; simp [runProbes] at hx
  | cons k rest ih =>
    intro c hc x hx
    simp only [runProbes, List.mem_cons] at hx
    have hlen := cacheProbe_length_le N c k mk hc
    rcases hx with rfl | hx
    · exact hlen
    · exact ih _ hlen x hx

/-- A probe of an absent key inserts the freshly created bucket at the
most-recent position and truncates to capacity. -/
theorem cacheProbe_miss (N : ℕ) (c : Cache) (k : String) (mk : RL64)
    (h : cacheFind c k = none) :
    cacheProbe N c k mk = (mk, ((k, mk) :: c).take N) := by
  unfold cacheProbe
  rw [h]

/-- When a full cache receives an absent key, the evicted entry is
exactly the last (least-recently-used) one. -/
theorem cacheProbe_evict_lru (N : ℕ) (c : Cache) (k : String) (mk : RL64)
    (hN : 0 < N) (hlen : c.length = N) (h : cacheFind c k = none) :
    (cacheProbe N c k mk).2 = (k, mk) :: c.dropLast := by
  rw [cacheProbe_miss N c k mk h]
  obtain ⟨n, rfl⟩ := Nat.exists_eq_succ_of_ne_zero (Nat.pos_iff_ne_zero.mp hN)
  simp [List.take_succ_cons, List.dropLast_eq_take, hlen]

/-- A successfully constructed nanosecond-variant bucket starts at
full capacity. -/
theorem new64_starts_full (rate per burst : ℕ) (t0 : ℤ) (b : RL64)
    (h : newBurstWithClock64 rate per burst t0 = .ok b) : b.tokens = b.maxtok := by
  simp only [newBurstWithClock64] at h
  split_ifs at h
  all_goals
    first
    | exact Except.noConfusion h
    | (injection h with h; subst h; rfl)

/-- After a probe (of a nonempty-capacity cache) the probed key sits at
the most-recent position, bound to the returned bucket. -/
theorem cacheProbe_front (N : ℕ) (c : Cache) (k : String) (mk : RL64) (hN : 0 < N) :
    ∃ rest, (cacheProbe N c k mk).2 = (k, (cacheProbe N c k mk).1) :: rest := by
  unfold cacheProbe
  cases hf : cacheFind c k with
  | some v => exact ⟨cacheErase c k, rfl⟩
  | none =>
    obtain ⟨n, rfl⟩ := Nat.exists_eq_succ_of_ne_zero (Nat.pos_iff_ne_zero.mp hN)
    exact ⟨c.take n, by simp [List.take_succ_cons]⟩

/-- Finding the key of the most-recent entry returns its bucket. -/
theorem cacheFind_cons_self (k : String) (v : RL64) (rest : Cache) :
    cacheFind ((k, v) :: rest) k = some v := by
  simp [cacheFind]

/-- A probe of a present key returns the stored bucket. -/
theorem cacheProbe_hit (N : ℕ) (c : Cache) (k : String) (mk v : RL64)
    (h : cacheFind c k = some v) : (cacheProbe N c k mk).1 = v := by
  unfold cacheProbe
  rw [h]

/-! ## Theorems settling the claims -/

/-- C1: for every bucket constructed with positive rate and every
finite operation sequence (`CanTake`/`Limit` on the float variant,
`MaybeTake`/`Limit`/`Reset` on the nanosecond variant) at
non-decreasing clock times, after each operation the token balance
satisfies `0 ≤ tokens ≤ capacity`, where the capacity (`clamp`
resp. `maxtok`) is fixed at construction. -/
theorem token_bound_invariant :
    (∀ (rate per burst : ℕ) (t0 : ℤ) (ops : List (ℤ × QOp)),
        0 < rate → timesMono t0 (ops.map Prod.fst) = true →
        ∀ s ∈ runQ (newBurstWithClockQ rate per burst t0) ops,
          0 ≤ s.tokens ∧ s.tokens ≤ s.clamp ∧
            s.clamp = (newBurstWithClockQ rate per burst t0).clamp)
    ∧ (∀ (rate per burst : ℕ) (t0 : ℤ) (ops : List (ℤ × Op64)) (r0 : RL64),
        0 < rate → newBurstWithClock64 rate per burst t0 = .ok r0 →
        timesMono t0 (ops.map Prod.fst) = true →
        ∀ s ∈ run64 r0 ops, 0 ≤ s.tokens ∧ s.tokens ≤ s.maxtok ∧ s.maxtok = r0.maxtok) := by
  constructor
  · intro rate per burst t0 ops hrate hmono s hs
    have h := runQ_inv ops (newBurstWithClockQ rate per burst t0)
      (newQ_inv rate per burst t0 hrate) hmono s hs
    exact ⟨h.1.1, h.1.2.1, h.2⟩
  · intro rate per burst t0 ops r0 _ hok _ s hs
    have h := run64_inv ops r0 (new64_inv rate per burst t0 r0 hok) s hs
    exact ⟨Nat.zero_le _, h.1.1, h.2⟩

/-- Witness for C1: a two-operation run of each variant at `rate=2,
per=1` from time 0, looking at the state after the first operation. -/
theorem token_bound_invariant_witness :
    (0 ≤ (stepQ (newBurstWithClockQ 2 1 0 0) 5 (QOp.canTake 1)).tokens ∧
      (stepQ (newBurstWithClockQ 2 1 0 0) 5 (QOp.canTake 1)).tokens ≤
        (stepQ (newBurstWithClockQ 2 1 0 0) 5 (QOp.canTake 1)).clamp ∧
      (stepQ (newBurstWithClockQ 2 1 0 0) 5 (QOp.canTake 1)).clamp =
        (newBurstWithClockQ 2 1 0 0).clamp)
    ∧ (0 ≤ (step64 ⟨500000000, 1000000000, 1000000000, 0, 2, 2, 1⟩ 5 (Op64.maybeTake 1)).tokens ∧
        (step64 ⟨500000000, 1000000000, 1000000000, 0, 2, 2, 1⟩ 5 (Op64.maybeTake 1)).tokens ≤
          (step64 ⟨500000000, 1000000000, 1000000000, 0, 2, 2, 1⟩ 5 (Op64.maybeTake 1)).maxtok ∧
        (step64 ⟨500000000, 1000000000, 1000000000, 0, 2, 2, 1⟩ 5 (Op64.maybeTake 1)).maxtok =
          RL64.maxtok ⟨500000000, 1000000000, 1000000000, 0, 2, 2, 1⟩) :=
  ⟨token_bound_invariant.1 2 1 0 0 [(5, QOp.canTake 1), (9, QOp.limit)] (by decide) (by decide)
      (stepQ (newBurstWithClockQ 2 1 0 0) 5 (QOp.canTake 1)) (by simp [runQ]),
   token_bound_invariant.2 2 1 0 0 [(5, Op64.maybeTake 1), (9, Op64.reset)]
      ⟨500000000, 1000000000, 1000000000, 0, 2, 2, 1⟩ (by decide) rfl (by decide)
      (step64 ⟨500000000, 1000000000, 1000000000, 0, 2, 2, 1⟩ 5 (Op64.maybeTake 1))
      (by simp [run64])⟩

/-- C7: the registry key of an address is the host portion whenever
the address string splits into host and port, and the full address
string otherwise; two addresses with the same host and different ports
get the same key, and resolving the second one through the registry
returns the very bucket the first one resolved to (limiting is per
host, not per host:port). -/
theorem host_keying :
    (∀ (s h p : String), splitHostPort s = some (h, p) → hostKey s = h)
    ∧ (∀ s : String, splitHostPort s = none → hostKey s = s)
    ∧ (∀ (a b h pa pb : String), splitHostPort a = some (h, pa) →
        splitHostPort b = some (h, pb) → hostKey a = hostKey b)
    ∧ (∀ (N : ℕ) (c : Cache) (mk1 mk2 : RL64) (a b : String), 0 < N →
        hostKey a = hostKey b →
        (cacheProbe N (cacheProbe N c (hostKey a) mk1).2 (hostKey b) mk2).1 =
          (cacheProbe N c (hostKey a) mk1).1) := by
  have hsome : ∀ (s h p : String), splitHostPort s = some (h, p) → hostKey s = h := by
    intro s h p hs
    unfold hostKey
    rw [hs]
  refine ⟨hsome, ?_, ?_, ?_⟩
  · intro s hs
    unfold hostKey
    rw [hs]
  · intro a b h pa pb ha hb
    rw [hsome a h pa ha, hsome b h pb hb]
  · intro N c mk1 mk2 a b hN hk
    rw [← hk]
    obtain ⟨rest, hfront⟩ := cacheProbe_front N c (hostKey a) mk1 hN
    rw [hfront]
    exact cacheProbe_hit _ _ _ _ _ (cacheFind_cons_self _ _ _)

/-- Witness for C7 on the concrete addresses `10.0.0.1:80` and
`10.0.0.1:443`: both resolve to key `10.0.0.1` and the second registry
lookup returns the bucket created by the first. -/
theorem host_keying_witness :
    hostKey "10.0.0.1:80" = "10.0.0.1"
    ∧ hostKey "10.0.0.1:80" = hostKey "10.0.0.1:443"
    ∧ (cacheProbe 4 (cacheProbe 4 [] (hostKey "10.0.0.1:80")
          ⟨500000000, 1000000000, 1000000000, 0, 2, 2, 1⟩).2 (hostKey "10.0.0.1:443")
          ⟨0, 0, 0, 0, 0, 0, 0⟩).1 =
        (cacheProbe 4 [] (hostKey "10.0.0.1:80")
          ⟨500000000, 1000000000, 1000000000, 0, 2, 2, 1⟩).1 :=
  ⟨host_keying.1 "10.0.0.1:80" "10.0.0.1" "80" (by decide),
   host_keying.2.2.1 "10.0.0.1:80" "10.0.0.1:443" "10.0.0.1" "80" "443"
      (by decide) (by decide),
   host_keying.2.2.2 4 [] ⟨500000000, 1000000000, 1000000000, 0, 2, 2, 1⟩
      ⟨0, 0, 0, 0, 0, 0, 0⟩ "10.0.0.1:80" "10.0.0.1:443" (by decide)
      (host_keying.2.2.1 "10.0.0.1:80" "10.0.0.1:443" "10.0.0.1" "80" "443"
        (by decide) (by decide))⟩

/-- C4: with `rate=3, per=2, burst=5` and an injected clock, five
`take-1` calls at time 0 succeed, a sixth fails, one more `take-1`
succeeds after advancing the clock 700ms, and a `take-3` at that same
instant fails.  Shown for both the float variant (`CanTake`) and the
nanosecond variant (`MaybeTake`); times are nanoseconds. -/
theorem burst_exhaustion_recovery :
    runResultsQ (newBurstWithClockQ 3 2 5 0)
        [(1, 0), (1, 0), (1, 0), (1, 0), (1, 0), (1, 0), (1, 700000000), (3, 700000000)] =
      [true, true, true, true, true, false, true, false]
    ∧ (newBurstWithClock64 3 2 5 0).toOption.map
        (fun r => runResults64 r
          [(1, 0), (1, 0), (1, 0), (1, 0), (1, 0), (1, 0), (1, 700000000), (3, 700000000)]) =
      some [true, true, true, true, true, false, true, false] := by
  exact ⟨by norm_num [runResultsQ, canTakeQ, newBurstWithClockQ], by decide⟩

/-- C9 counterexample: constructing the repository's nanosecond-variant
token bucket with `per = 0` does not succeed — it returns an error
(concretely at `rate = 1`, `burst = 0`, clock time 0). -/
theorem per_zero_construction_fails :
    newBurstWithClock64 1 0 0 0 = .error "ratelimit: duration can't be zero" := rfl

/-- C9 (amended): the float variant normalizes `per = 0` to `1` (the
constructed bucket is identical to one built with `per = 1`, for every
rate, burst and clock), while the nanosecond variant rejects `per = 0`
with a construction error. -/
theorem per_zero_normalized_or_rejected :
    (∀ (rate burst : ℕ) (now : ℤ),
        newBurstWithClockQ rate 0 burst now = newBurstWithClockQ rate 1 burst now)
    ∧ (∀ (rate burst : ℕ) (now : ℤ),
        ∃ e, newBurstWithClock64 rate 0 burst now = .error e) :=
  ⟨fun _ _ _ => rfl, fun _ _ _ => ⟨_, rfl⟩⟩

/-- C5: at `rate=3, per=2, burst=1` the nanosecond variant's capacity is
`burst * cost` — one token's worth (`666666666` ns at cost `666666666`)
— not `max(rate, burst) = 3` tokens as the constructor's own doc
comment ("bursts smaller than the actual rate are ignored") promises:
the initial balance equals `1 * cost`, differs from `max(3,1) * cost`,
and a `MaybeTake(2)` still fails after an arbitrarily long refill. -/
theorem capacity_not_max_rate_burst :
    (newBurstWithClock64 3 2 1 0).toOption.map
        (fun r => (r.tokens, r.maxtok, r.cost)) = some (666666666, 666666666, 666666666)
    ∧ (newBurstWithClock64 3 2 1 0).toOption.map
        (fun r => decide (r.maxtok = max 3 1 * r.cost)) = some false
    ∧ (newBurstWithClock64 3 2 1 0).toOption.map
        (fun r => (maybeTake64 r 1000000000000000 2).1) = some false := by
  exact ⟨by decide, by decide, by decide⟩

/-- C2: with `rate = 0` the buckets always permit (`MaybeTake` true,
`CanTake` true, `Limit` false) and the registry's `Limit` never limits,
but the registry's `MaybeTake` returns `false` (denies) because the nil
cache pointer branch returns `false` — contradicting the unlimited
semantics of the underlying bucket. -/
theorem unlimited_registry_maybeTake_denies :
    (newPerIP 0 1 10).toOption.map
        (fun p => (perIPMaybeTake p "1.2.3.4:80" 0 1).1) = some false
    ∧ (newPerIP 0 1 10).toOption.map
        (fun p => (perIPLimit p "1.2.3.4:80" 0).1) = some false
    ∧ (new64 0 1 0).toOption.map (fun b => (maybeTake64 b 7 5).1) = some true
    ∧ (new64 0 1 0).toOption.map (fun b => (limit64 b 7).1) = some false
    ∧ (canTakeQ (newBurstWithClockQ 0 1 0 0) 7 5).1 = true
    ∧ (limitQ (newBurstWithClockQ 0 1 0 0) 7).1 = false := by
  refine ⟨by decide, by decide, by decide, by decide, ?_, ?_⟩
  · norm_num [canTakeQ, newBurstWithClockQ]
  · norm_num [limitQ, canTakeQ, newBurstWithClockQ]

/-- C8: `NewPerIP` returns an error whenever `maxEntries ≤ 0`, and for
every positive `maxEntries` the capacity check passes (the result is
never the capacity error), for every rate and per. -/
theorem newPerIP_max_check :
    ∀ (rate per : ℕ) (maxE : ℤ),
      (maxE ≤ 0 → ∃ e, newPerIP rate per maxE = .error e)
      ∧ (0 < maxE → newPerIP rate per maxE ≠ .error .badMax) := by
  intro rate per maxE
  constructor
  · intro hmax
    unfold newPerIP
    by_cases hper : per = 0
    · exact ⟨.badPer, by simp [hper]⟩
    · exact ⟨.badMax, by simp [hper, hmax]⟩
  · intro hmax
    unfold newPerIP
    by_cases hper : per = 0
    · simp [hper]
    · simp [hper, not_le.mpr hmax]

/-- Witness for C8 at concrete inputs: `maxEntries = 0` fails and
`maxEntries = 3` passes the capacity check (`rate = 5`, `per = 1`). -/
theorem newPerIP_max_check_witness :
    (∃ e, newPerIP 5 1 0 = .error e) ∧ newPerIP 5 1 3 ≠ .error .badMax :=
  ⟨(newPerIP_max_check 5 1 0).1 (by decide), (newPerIP_max_check 5 1 3).2 (by decide)⟩

/-- C3: with cache capacity `N > 0`, probing any sequence of source
keys from an empty registry never tracks more than `N` entries; when a
full cache must evict for a new key, it drops exactly the
least-recently-used (last) entry; a probe of an absent (e.g. evicted)
key returns the freshly created bucket; and a freshly constructed
bucket's balance equals its full capacity. -/
theorem bounded_lru_registry :
    (∀ (N : ℕ) (mk : RL64) (keys : List String), 0 < N →
        ∀ c ∈ runProbes N mk [] keys, c.length ≤ N)
    ∧ (∀ (N : ℕ) (c : Cache) (k : String) (mk : RL64),
        0 < N → c.length = N → cacheFind c k = none →
        (cacheProbe N c k mk).2 = (k, mk) :: c.dropLast)
    ∧ (∀ (N : ℕ) (c : Cache) (k : String) (mk : RL64),
        cacheFind c k = none → (cacheProbe N c k mk).1 = mk)
    ∧ (∀ (rate per burst : ℕ) (t0 : ℤ) (b : RL64),
        newBurstWithClock64 rate per burst t0 = .ok b → b.tokens = b.maxtok) := by
  refine ⟨?_, cacheProbe_evict_lru, ?_, new64_starts_full⟩
  · intro N mk keys _ c hc
    exact runProbes_length N mk keys [] (by simp) c hc
  · intro N c k mk h
    rw [cacheProbe_miss N c k mk h]

/-- Witness for C3 at capacity `N = 1`: running the keys `a` then `b`
keeps the entry count at 1, probing `b` on the full cache evicts the
LRU entry `a` and returns the fresh bucket, and the concretely
constructed bucket is full. -/
theorem bounded_lru_registry_witness :
    ([("a", (⟨500000000, 1000000000, 1000000000, 0, 2, 2, 1⟩ : RL64))].length ≤ 1)
    ∧ ((cacheProbe 1 [("a", ⟨500000000, 1000000000, 1000000000, 0, 2, 2, 1⟩)] "b"
          ⟨500000000, 1000000000, 1000000000, 0, 2, 2, 1⟩).2 =
        ("b", (⟨500000000, 1000000000, 1000000000, 0, 2, 2, 1⟩ : RL64)) ::
          [("a", (⟨500000000, 1000000000, 1000000000, 0, 2, 2, 1⟩ : RL64))].dropLast)
    ∧ ((cacheProbe 1 [("a", ⟨500000000, 1000000000, 1000000000, 0, 2, 2, 1⟩)] "b"
          ⟨500000000, 1000000000, 1000000000, 0, 2, 2, 1⟩).1 =
        ⟨500000000, 1000000000, 1000000000, 0, 2, 2, 1⟩)
    ∧ RL64.tokens ⟨500000000, 1000000000, 1000000000, 0, 2, 2, 1⟩ =
        RL64.maxtok ⟨500000000, 1000000000, 1000000000, 0, 2, 2, 1⟩ :=
  ⟨bounded_lru_registry.1 1 ⟨500000000, 1000000000, 1000000000, 0, 2, 2, 1⟩ ["a", "b"]
      (by decide) [("a", ⟨500000000, 1000000000, 1000000000, 0, 2, 2, 1⟩)] (by decide),
   bounded_lru_registry.2.1 1 [("a", ⟨500000000, 1000000000, 1000000000, 0, 2, 2, 1⟩)] "b"
      ⟨500000000, 1000000000, 1000000000, 0, 2, 2, 1⟩ (by decide) (by decide) (by decide),
   bounded_lru_registry.2.2.1 1 [("a", ⟨500000000, 1000000000, 1000000000, 0, 2, 2, 1⟩)] "b"
      ⟨500000000, 1000000000, 1000000000, 0, 2, 2, 1⟩ (by decide),
   bounded_lru_registry.2.2.2 2 1 0 0 ⟨500000000, 1000000000, 1000000000, 0, 2, 2, 1⟩ rfl⟩

/-- C6: for a limited bucket, a take is exactly drip-fill followed by
an all-or-nothing consumption: on success exactly the requested amount
is subtracted from the post-drip-fill balance, on failure the
post-drip-fill balance is returned unchanged. -/
theorem take_is_dripFill_then_all_or_nothing :
    (∀ (r : RateLimiterQ) (now : ℤ) (n : ℕ), r.unlimited = false →
        canTakeQ r now n =
          if (dripFillQ r now).tokens < (n : ℚ) then (false, dripFillQ r now)
          else (true, { dripFillQ r now with
                        tokens := (dripFillQ r now).tokens - (n : ℚ) }))
    ∧ (∀ (r : RL64) (now : ℤ) (n : ℕ), r.rate ≠ 0 →
        maybeTake64 r now n =
          if want64 r n ≤ (dripFill64 r now).tokens
          then (true, { dripFill64 r now with
                        tokens := (dripFill64 r now).tokens - want64 r n })
          else (false, dripFill64 r now)) := by
  constructor
  · intro r now n hu
    simp only [canTakeQ, dripFillQ, hu, Bool.false_eq_true, if_false, want64]
  · intro r now n hr
    simp only [maybeTake64, dripFill64, hr, if_false, want64]

/-- Witness for C6: the decomposition instantiated at a freshly
constructed float bucket (`rate=3, per=2, burst=5`) and an explicit
nanosecond bucket state, both limited. -/
theorem take_is_dripFill_then_all_or_nothing_witness :
    (canTakeQ (newBurstWithClockQ 3 2 5 0) 0 2 =
      if (dripFillQ (newBurstWithClockQ 3 2 5 0) 0).tokens < (2 : ℚ)
      then (false, dripFillQ (newBurstWithClockQ 3 2 5 0) 0)
      else (true, { dripFillQ (newBurstWithClockQ 3 2 5 0) 0 with
                    tokens := (dripFillQ (newBurstWithClockQ 3 2 5 0) 0).tokens - (2 : ℚ) }))
    ∧ (maybeTake64 ⟨666666666, 100, 3333333330, 0, 3, 5, 2⟩ 50 2 =
        if want64 ⟨666666666, 100, 3333333330, 0, 3, 5, 2⟩ 2 ≤
            (dripFill64 ⟨666666666, 100, 3333333330, 0, 3, 5, 2⟩ 50).tokens
        then (true, { dripFill64 ⟨666666666, 100, 3333333330, 0, 3, 5, 2⟩ 50 with
                      tokens := (dripFill64 ⟨666666666, 100, 3333333330, 0, 3, 5, 2⟩ 50).tokens -
                        want64 ⟨666666666, 100, 3333333330, 0, 3, 5, 2⟩ 2 })
        else (false, dripFill64 ⟨666666666, 100, 3333333330, 0, 3, 5, 2⟩ 50)) :=
  ⟨take_is_dripFill_then_all_or_nothing.1 (newBurstWithClockQ 3 2 5 0) 0 2 rfl,
   take_is_dripFill_then_all_or_nothing.2 ⟨666666666, 100, 3333333330, 0, 3, 5, 2⟩ 50 2
     (by decide)⟩

end GoRatelimit
